import Mathlib

/-!
# Verification of the LazytimeSheet v2 timesheet pipeline

A shallow embedding of the core logic of `src/main.py` (the
`/generate-timesheet-v2` endpoint): the recurrence describer, the week
window calculator, the event classifier, the coverage reconciler, the
recurrence applier and the response assembler.

Dates are modelled as integers (a day count), with the weekday cycle
`weekdayName d = names[(d % 7)]` where day `0` is a Monday; this is the
abstraction of Python's `date` arithmetic and `strftime("%A")` that the
pipeline relies on (only day-level arithmetic and weekday names are ever
used).  Calendar events are records carrying the fields the code reads
(`SUMMARY`, `UID`, `DTSTART` resolved to a local date, `RRULE`, `EXDATE`
normalized to dates).  The day-bucket dictionary `events_by_day` is an
association list whose lookups are partial (`Option`): indexing a missing
key models Python's `KeyError`, so the applier — which indexes
`events_by_day[weekday]` unguarded — returns `Option Board`, with `none`
standing for an uncaught `KeyError` aborting the request.
-/

/-- A recurrence rule as the code reads it from `icalendar`: `rrule.get("FREQ", [])`
and `rrule.get("BYDAY", [])` are lists of strings, `UNTIL` is normalized to a
plain date (`until_vals[0].date()` when it is a datetime). -/
structure RRule where
  freq : List String
  byday : List String
  untilDate : Option Int
  deriving Repr, DecidableEq

/-- A parsed `VEVENT` with the fields `generate_timesheet_v2` reads.
`dtstart` is the event's start resolved to a local-zone date (`none` when the
component has no `DTSTART`); `exdate` is the list of `EXDATE` entries
normalized to plain dates (empty when the property is absent). -/
structure VEvent where
  summary : String
  uid : String
  dtstart : Option Int
  rrule : Option RRule
  exdate : List Int
  deriving Repr, DecidableEq

/-- A registered recurring candidate, the value stored in
`recurring_candidates[uid]`. -/
structure Candidate where
  uid : String
  summary : String
  byday : List String
  exdates : List Int
  recurrence_text : String
  deriving Repr, DecidableEq

/-!
Python string primitives (`str.strip`, `str.lower`, `str.upper`, slicing,
`str.startswith`, `str.split`) are modelled as structurally recursive
functions over the character list of a `String`, so that every definition
evaluates inside the kernel.  ASCII behaviour (all the pipeline's fixed
strings are ASCII) is what matters here.
-/

/-- `s.strip()`: drop leading and trailing whitespace. -/
def pyStrip (s : String) : String :=
  ⟨((s.data.dropWhile Char.isWhitespace).reverse.dropWhile Char.isWhitespace).reverse⟩

/-- `s.lower()` (ASCII). -/
def pyLower (s : String) : String :=
  ⟨s.data.map Char.toLower⟩

/-- `s.upper()` (ASCII). -/
def pyUpper (s : String) : String :=
  ⟨s.data.map Char.toUpper⟩

/-- The slice `s[:n]`. -/
def pyTake (n : Nat) (s : String) : String :=
  ⟨s.data.take n⟩

/-- `s.startswith(p)`. -/
def pyStartswith (p s : String) : Bool :=
  p.data.isPrefixOf s.data

/-- Worker for `s.split("||")`: scan left to right, cutting at each
non-overlapping occurrence of the two-character separator. -/
def splitBarsAux : List Char → List Char → List String
  | [], acc => [⟨acc.reverse⟩]
  | '|' :: '|' :: cs, acc => (⟨acc.reverse⟩ : String) :: splitBarsAux cs []
  | c :: cs, acc => splitBarsAux cs (c :: acc)

/-- `s.split("||")`, the fixed two-character separator used by the endpoint. -/
def splitBars (s : String) : List String :=
  splitBarsAux s.data []

/-- The `day_map` dict literal inside `describe_recurrence`. -/
def day_map_get : String → Option String
  | "MO" => some "Monday"
  | "TU" => some "Tuesday"
  | "WE" => some "Wednesday"
  | "TH" => some "Thursday"
  | "FR" => some "Friday"
  | "SA" => some "Saturday"
  | "SU" => some "Sunday"
  | _ => none

/-- `[day_map[d] for d in byday if d in day_map]`: the recognized day names,
unrecognized codes silently dropped. -/
def recognizedDays (byday : List String) : List String :=
  byday.filterMap day_map_get

/-- `describe_recurrence(rrule)` from `src/main.py` lines 13–41. -/
def describe_recurrence (rrule : RRule) : String :=
  let freq := rrule.freq
  let byday := rrule.byday
  if freq.head? = some "DAILY" then "Occurs every day"
  else if freq.head? = some "WEEKLY" ∧ byday ≠ [] then
    let days := recognizedDays byday
    if days = ["Monday", "Tuesday", "Wednesday", "Thursday", "Friday"] then
      "Occurs every weekday"
    else if days.length = 1 then "Occurs every " ++ days.headD ""
    else "Occurs every " ++ String.intercalate ", " days
  else "Recurring meeting"

/-- `get_week_range_from_sunday(sunday)` from `src/main.py` lines 44–47:
`monday = sunday + 1 day`, `friday = monday + 4 days`. -/
def get_week_range_from_sunday (sunday : Int) : Int × Int :=
  let monday := sunday + 1
  let friday := monday + 4
  (monday, friday)

/-- The seven weekday names in Python `date.weekday()` order (0 = Monday). -/
def weekdayNames : List String :=
  ["Monday", "Tuesday", "Wednesday", "Thursday", "Friday", "Saturday", "Sunday"]

/-- `dt.strftime("%A")`: the weekday name of a date, under the convention
that day 0 is a Monday (dates are integers, the weekday cycle has period 7). -/
def strftimeA (d : Int) : String :=
  weekdayNames.getD (d % 7).toNat "Monday"

/-- The day-bucket dictionary: an association list from weekday name to the
ordered list of summaries attended that day. -/
abbrev Board := List (String × List String)

/-- The `recurring_candidates` dictionary keyed by UID. -/
abbrev Table := List (String × Candidate)

/-- The `events_by_day` literal: Monday..Friday, each mapped to an empty list. -/
def initBoard : Board :=
  [("Monday", []), ("Tuesday", []), ("Wednesday", []), ("Thursday", []), ("Friday", [])]

/-- Dictionary lookup `events_by_day[day]` / `day in events_by_day`:
`none` models a missing key (a `KeyError` when indexed). -/
def boardGet : Board → String → Option (List String)
  | [], _ => none
  | q :: b, d => if q.1 = d then some q.2 else boardGet b d

/-- `events_by_day[day].append(s)`: rebuild the board with `s` appended to the
bucket stored under key `day` (other entries unchanged). -/
def boardAppend (b : Board) (day : String) (s : String) : Board :=
  b.map (fun q => if q.1 = day then (q.1, q.2 ++ [s]) else q)

/-- Dictionary lookup `recurring_candidates.get(uid)`. -/
def tableGet : Table → String → Option Candidate
  | [], _ => none
  | p :: t, k => if p.1 = k then some p.2 else tableGet t k

/-- Dictionary assignment `recurring_candidates[uid] = v`: overwrite in place
when the key exists (keeping first-insertion order), append otherwise. -/
def tableInsert (t : Table) (k : String) (v : Candidate) : Table :=
  if (tableGet t k).isSome then t.map (fun p => if p.1 = k then (k, v) else p)
  else t ++ [(k, v)]

/-- The in-window bucketing step of the classifier loop (`src/main.py` lines
168–172): when the event date lies in `[week_start, week_end]` and its weekday
has a bucket, append the summary there unless it is already present. -/
def bucketEvent (week_start week_end : Int) (b : Board) (summary : String)
    (event_date : Int) : Board :=
  if week_start ≤ event_date ∧ event_date ≤ week_end then
    match boardGet b (strftimeA event_date) with
    | none => b
    | some l =>
      if summary ∈ l then b else boardAppend b (strftimeA event_date) summary
  else b

/-- The candidate-registration step of the classifier loop (`src/main.py`
lines 174–198): with a recurrence rule and a non-empty UID, register the
candidate under the UID unless the rule's window misses the requested week. -/
def registerCandidate (week_start week_end : Int) (t : Table)
    (uid summary : String) (rrule : Option RRule) (exdate : List Int)
    (event_date : Int) : Table :=
  match rrule with
  | none => t
  | some rrule =>
    if uid = "" then t
    else if decide (event_date > week_end) ||
        (match rrule.untilDate with
         | some u => decide (u < week_start)
         | none => false) then t
    else
      tableInsert t uid
        { uid := uid, summary := summary, byday := rrule.byday,
          exdates := exdate, recurrence_text := describe_recurrence rrule }

/-- The body of the classifier loop (`src/main.py` lines 148–198) for one
`VEVENT`, threading the board and candidate table. -/
def processEvent (week_start week_end : Int) (st : Board × Table) (e : VEvent) :
    Board × Table :=
  if pyStrip e.summary = "" ∨
      pyStartswith "canceled" (pyLower (pyStrip e.summary)) then st
  else
    match e.dtstart with
    | none => st
    | some event_date =>
      (bucketEvent week_start week_end st.1 (pyStrip e.summary) event_date,
       registerCandidate week_start week_end st.2 (pyStrip e.uid)
         (pyStrip e.summary) e.rrule e.exdate event_date)

/-- The classifier: fold the loop body over the calendar's events starting
from the empty board and empty candidate table. -/
def classify (week_start week_end : Int) (events : List VEvent) : Board × Table :=
  events.foldl (processEvent week_start week_end) (initBoard, [])

/-- The set comprehension inside `fully_covered`: the two-letter codes
(`day[:2].upper()`) of the weekdays whose bucket already contains `summary`
by exact text match. -/
def coveredCodes (board : Board) (summary : String) : List String :=
  board.filterMap (fun q => if summary ∈ q.2 then some (pyUpper (pyTake 2 q.1)) else none)

/-- `fully_covered(summary, byday)` from `src/main.py` lines 201–206:
`set(byday) <= covered`. -/
def fully_covered (board : Board) (summary : String) (byday : List String) : Bool :=
  byday.all (fun d => decide (d ∈ coveredCodes board summary))

/-- The reconciler loop (`src/main.py` lines 208–211): pop every candidate
with a non-empty BYDAY that is fully covered. -/
def reconcile (board : Board) (t : Table) : Table :=
  t.filter (fun p => !(!p.2.byday.isEmpty && fully_covered board p.2.summary p.2.byday))

/-- One offset iteration of the applier's inner loop (`src/main.py` lines
220–226).  `none` models the `KeyError` raised by `events_by_day[weekday]`
when `weekday` is Saturday or Sunday. -/
def applyDay (week_start : Int) (rec : Candidate) (board : Board) (offset : Nat) :
    Option Board :=
  let current_date := week_start + (offset : Int)
  let weekday := strftimeA current_date
  if pyUpper (pyTake 2 weekday) ∈ rec.byday then
    if current_date ∈ rec.exdates then some board
    else
      match boardGet board weekday with
      | none => none
      | some l =>
        if rec.summary ∈ l then some board
        else some (boardAppend board weekday rec.summary)
  else some board

/-- `for offset in range(5)` over a list of offsets, propagating a `KeyError`. -/
def applyDays (week_start : Int) (rec : Candidate) :
    List Nat → Board → Option Board
  | [], b => some b
  | i :: is, b =>
    match applyDay week_start rec b i with
    | none => none
    | some b' => applyDays week_start rec is b'

/-- One iteration of the applier's outer loop for a single UID token
(`src/main.py` lines 215–226): unknown UIDs are skipped silently. -/
def applyOne (week_start : Int) (t : Table) (board : Board) (uid : String) :
    Option Board :=
  match tableGet t uid with
  | none => some board
  | some rec => applyDays week_start rec [0, 1, 2, 3, 4] board

/-- The applier's outer loop over all UID tokens. -/
def applyAll (week_start : Int) (t : Table) :
    List String → Board → Option Board
  | [], b => some b
  | uid :: uids, b =>
    match applyOne week_start t b uid with
    | none => none
    | some b' => applyAll week_start t uids b'

/-- `if include_recurring_uids: for uid in include_recurring_uids.split("||")`
(`src/main.py` lines 214–226). -/
def applySelected (week_start : Int) (t : Table) (board : Board)
    (include_recurring_uids : String) : Option Board :=
  if include_recurring_uids = "" then some board
  else applyAll week_start t (splitBars include_recurring_uids) board

/-- One entry of the `recurring_candidates` response list. -/
structure CandidateOut where
  uid : String
  summary : String
  recurrence_text : String
  byday : List String
  deriving Repr, DecidableEq

/-- The projection applied to each remaining candidate when building the
response (`src/main.py` lines 237–245). -/
def candidateOut (p : String × Candidate) : CandidateOut :=
  { uid := p.2.uid, summary := p.2.summary,
    recurrence_text := p.2.recurrence_text, byday := p.2.byday }

/-- The endpoint's JSON-shaped response. -/
structure Response where
  week_range : String
  timesheet_summary : List (String × String)
  recurring_candidates : Option (List CandidateOut)
  deriving Repr, DecidableEq

/-- The candidate table remaining after classification and reconciliation. -/
def v2Candidates (sunday : Int) (events : List VEvent) : Table :=
  let wr := get_week_range_from_sunday sunday
  let st := classify wr.1 wr.2 events
  reconcile st.1 st.2

/-- The day-bucket board after classification, reconciliation and the
recurrence applier (`none` = the applier raised a `KeyError`). -/
def v2Board (sunday : Int) (events : List VEvent)
    (include_recurring_uids : String) : Option Board :=
  let wr := get_week_range_from_sunday sunday
  let st := classify wr.1 wr.2 events
  applySelected wr.1 (reconcile st.1 st.2) st.1 include_recurring_uids

/-- The whole core of `generate_timesheet_v2` (`src/main.py` lines 124–247)
after parsing: from the anchor date, events, UID selection and finalize flag
to the response (`none` = an uncaught `KeyError`). -/
def generate_timesheet_v2 (sunday : Int) (events : List VEvent)
    (include_recurring_uids finalize : String) : Option Response :=
  let wr := get_week_range_from_sunday sunday
  match v2Board sunday events include_recurring_uids with
  | none => none
  | some board =>
    some
      { week_range := toString wr.1 ++ " to " ++ toString wr.2,
        timesheet_summary := board.map
          (fun q => (q.1, if q.2.isEmpty then ""
                          else "Attended " ++ String.intercalate ", " q.2)),
        recurring_candidates :=
          if pyLower finalize = "true" then none
          else some ((v2Candidates sunday events).map candidateOut) }

/-! ## Supporting lemmas -/

/-- How an append is observed through lookups: the bucket under the appended
key grows by one element, every other lookup is unchanged. -/
theorem boardGet_boardAppend (b : Board) (day s d : String) :
    boardGet (boardAppend b day s) d =
      if day = d then (boardGet b d).map (fun l => l ++ [s]) else boardGet b d := by
  induction b with
  | nil => simp [boardAppend, boardGet]
  | cons q b ih =>
    simp only [boardAppend, List.map_cons] at *
    by_cases hqday : q.1 = day
    · by_cases hqd : q.1 = d
      · have hdd : day = d := by rw [← hqday, hqd]
        simp [boardGet, hqday, hqd, hdd]
      · have hdd : ¬(day = d) := by rw [← hqday]; exact hqd
        simp [boardGet, hqday, hqd, hdd, ih]
    · by_cases hqd : q.1 = d
      · have hdd : ¬(day = d) := fun h => hqday (by rw [hqd, ← h])
        have hdd' : ¬(d = day) := fun h => hdd h.symm
        simp [boardGet, hqday, hqd, hdd, hdd']
      · simp [boardGet, hqday, hqd, ih]

/-! ## Claim theorems -/

/-- C9: for every anchor date `A`, the Week Window Calculator returns exactly
`(A + 1, A + 5)`, so `end - start = 4`; it is a pure total function (defined
for every integer date, in particular it performs no check that `A` is a
Sunday). -/
theorem week_window_spec (A : Int) :
    get_week_range_from_sunday A = (A + 1, A + 5) ∧
    (get_week_range_from_sunday A).2 - (get_week_range_from_sunday A).1 = 4 := by
  unfold get_week_range_from_sunday
  refine ⟨?_, ?_⟩
  · simp only [Prod.mk.injEq]
    exact ⟨trivial, by ring⟩
  · ring

/-- C5: an event whose stripped SUMMARY is empty, or whose stripped SUMMARY
starts (case-insensitively) with "canceled", or which lacks a DTSTART value,
leaves both the board and the candidate table untouched; the classifier step
is a total function, so such an event never raises. -/
theorem skipped_event_contributes_nothing (ws we : Int) (st : Board × Table)
    (e : VEvent)
    (h : pyStrip e.summary = "" ∨
      pyStartswith "canceled" (pyLower (pyStrip e.summary)) = true ∨
      e.dtstart = none) :
    processEvent ws we st e = st := by
  unfold processEvent
  rcases h with h | h | h
  · simp [h]
  · simp [h]
  · by_cases hc : pyStrip e.summary = "" ∨
        pyStartswith "canceled" (pyLower (pyStrip e.summary))
    · simp [hc]
    · simp [hc, h]

/-- Witness for C5 at a whitespace-only summary. -/
theorem skipped_event_contributes_nothing_witness :
    processEvent 7 11 (initBoard, [])
      { summary := "   ", uid := "u", dtstart := some 8, rrule := none, exdate := [] } =
      (initBoard, []) :=
  skipped_event_contributes_nothing 7 11 (initBoard, []) _ (Or.inl (by decide))

/-- C8: a UID token that is not a key of the candidate table is skipped
silently by the applier: the board is returned unchanged (`some board`, never
the `none` that models an uncaught error). -/
theorem unknown_uid_skipped (ws : Int) (t : Table) (board : Board) (uid : String)
    (h : tableGet t uid = none) : applyOne ws t board uid = some board := by
  unfold applyOne
  rw [h]

/-- Witness for C8 at a concrete unknown UID. -/
theorem unknown_uid_skipped_witness :
    applyOne 7 [] initBoard "no-such-uid" = some initBoard :=
  unknown_uid_skipped 7 [] initBoard "no-such-uid" rfl

/-- C6: `describe_recurrence` returns, in priority order: "Occurs every day"
for FREQ = DAILY; "Occurs every weekday" for FREQ = WEEKLY when the recognized
day list equals exactly Monday..Friday in that order; "Occurs every <Day>" for
a single recognized day; the comma-joined day list, in listed order, for
several recognized days (other than the exact weekday sequence); and
"Recurring meeting" for any other frequency (e.g. MONTHLY) or for WEEKLY
without BYDAY — unrecognized codes having been dropped by `recognizedDays`
before all these comparisons. -/
theorem describe_recurrence_cases (r : RRule) :
    (r.freq.head? = some "DAILY" → describe_recurrence r = "Occurs every day") ∧
    (r.freq.head? = some "WEEKLY" →
      recognizedDays r.byday = ["Monday", "Tuesday", "Wednesday", "Thursday", "Friday"] →
      describe_recurrence r = "Occurs every weekday") ∧
    (∀ d, r.freq.head? = some "WEEKLY" → recognizedDays r.byday = [d] →
      describe_recurrence r = "Occurs every " ++ d) ∧
    (r.freq.head? = some "WEEKLY" → 2 ≤ (recognizedDays r.byday).length →
      recognizedDays r.byday ≠ ["Monday", "Tuesday", "Wednesday", "Thursday", "Friday"] →
      describe_recurrence r = "Occurs every " ++ String.intercalate ", " (recognizedDays r.byday)) ∧
    ((∀ f, r.freq.head? = some f → f ≠ "DAILY" ∧ f ≠ "WEEKLY") ∨
      (r.freq.head? = some "WEEKLY" ∧ r.byday = []) →
      describe_recurrence r = "Recurring meeting") := by
  refine ⟨?_, ?_, ?_, ?_, ?_⟩
  · intro h
    simp [describe_recurrence, h]
  · intro h1 h2
    have hb : r.byday ≠ [] := by
      intro hb
      rw [hb] at h2
      simp [recognizedDays] at h2
    simp [describe_recurrence, h1, h2, hb]
  · intro d h1 h2
    have hb : r.byday ≠ [] := by
      intro hb
      rw [hb] at h2
      simp [recognizedDays] at h2
    have hne : recognizedDays r.byday ≠
        ["Monday", "Tuesday", "Wednesday", "Thursday", "Friday"] := by
      rw [h2]
      simp
    simp [describe_recurrence, h1, h2, hb, hne]
  · intro h1 h2 h3
    have hb : r.byday ≠ [] := by
      intro hb
      rw [hb] at h2
      simp [recognizedDays] at h2
    have hlen : (recognizedDays r.byday).length ≠ 1 := by omega
    simp [describe_recurrence, h1, hb, h3, hlen]
  · intro h
    rcases h with h | ⟨h1, h2⟩
    · cases hf : r.freq.head? with
      | none => simp [describe_recurrence, hf]
      | some f =>
        obtain ⟨hd, hw⟩ := h f hf
        simp [describe_recurrence, hf, hd, hw]
    · simp [describe_recurrence, h1, h2]

/-- Witness for C6: FREQ = WEEKLY, BYDAY = [TU] yields "Occurs every Tuesday". -/
theorem describe_recurrence_cases_witness :
    describe_recurrence { freq := ["WEEKLY"], byday := ["TU"], untilDate := none } =
      "Occurs every " ++ "Tuesday" :=
  (describe_recurrence_cases
      { freq := ["WEEKLY"], byday := ["TU"], untilDate := none }).2.2.1 "Tuesday" rfl rfl

/-- C1: the reconciler removes a candidate present in the table iff its BYDAY
is non-empty and every code in it belongs to the covered-code set (the
uppercased two-letter prefixes of the weekdays whose bucket contains the
candidate's summary by exact text match); a candidate with an empty BYDAY is
never removed and remains pending. -/
theorem reconcile_removes_iff (board : Board) (t : Table) (p : String × Candidate)
    (hp : p ∈ t) :
    (p.2.byday = [] → p ∈ reconcile board t) ∧
    (p.2.byday ≠ [] →
      (p ∉ reconcile board t ↔
        ∀ c ∈ p.2.byday, c ∈ coveredCodes board p.2.summary)) := by
  have key : p ∉ reconcile board t ↔
      (!p.2.byday.isEmpty && fully_covered board p.2.summary p.2.byday) = true := by
    simp [reconcile, List.mem_filter, hp]
  constructor
  · intro hb
    by_contra hout
    rw [key] at hout
    simp [hb] at hout
  · intro hb
    have h1 : p.2.byday.isEmpty = false := by
      cases hby : p.2.byday with
      | nil => exact absurd hby hb
      | cons a l => rfl
    rw [key]
    simp [h1, fully_covered, List.all_eq_true]

/-- A board with "Standup" recorded on Monday, used in concrete instances. -/
def covBoard : Board :=
  [("Monday", ["Standup"]), ("Tuesday", []), ("Wednesday", []), ("Thursday", []), ("Friday", [])]

/-- A Monday-only recurring candidate whose summary already appears on Monday. -/
def covCand : Candidate :=
  { uid := "u1"
    summary := "Standup"
    byday := ["MO"]
    exdates := []
    recurrence_text := "Occurs every Monday" }

/-- Witness for C1: a BYDAY=[MO] candidate whose summary is already on the
Monday bucket is removed by the reconciler. -/
theorem reconcile_removes_iff_witness :
    ("u1", covCand) ∉ reconcile covBoard [("u1", covCand)] :=
  ((reconcile_removes_iff covBoard [("u1", covCand)] ("u1", covCand)
      (by decide)).2 (by decide)).mpr (by decide)

/-- C4: for an event that passes the summary skip check, has a start value, a
recurrence rule and a non-empty (stripped) UID, the classifier registers the
candidate — summary, BYDAY, EXDATE set, generated recurrence text, keyed by
UID — exactly when the start date is not after the week's end and the rule's
UNTIL date, when present, is not before the week's start; otherwise the
candidate table is left unchanged. -/
theorem candidate_registration (ws we : Int) (st : Board × Table) (e : VEvent)
    (d : Int) (r : RRule)
    (hsum : ¬(pyStrip e.summary = "" ∨
      pyStartswith "canceled" (pyLower (pyStrip e.summary)) = true))
    (hd : e.dtstart = some d) (hr : e.rrule = some r)
    (huid : pyStrip e.uid ≠ "") :
    ((d ≤ we ∧ ∀ u, r.untilDate = some u → ws ≤ u) →
      (processEvent ws we st e).2 =
        tableInsert st.2 (pyStrip e.uid)
          { uid := pyStrip e.uid, summary := pyStrip e.summary, byday := r.byday,
            exdates := e.exdate, recurrence_text := describe_recurrence r }) ∧
    ((we < d ∨ ∃ u, r.untilDate = some u ∧ u < ws) →
      (processEvent ws we st e).2 = st.2) := by
  constructor
  · rintro ⟨h1, h2⟩
    have hskip : (decide (d > we) ||
        (match r.untilDate with
         | some u => decide (u < ws)
         | none => false)) = false := by
      cases hu : r.untilDate with
      | none => simp [not_lt_of_le h1]
      | some u => simp [not_lt_of_le h1, not_lt_of_le (h2 u hu)]
    unfold processEvent
    simp [hsum, hd, hr, huid, hskip, registerCandidate]
  · intro h
    have hskip : (decide (d > we) ||
        (match r.untilDate with
         | some u => decide (u < ws)
         | none => false)) = true := by
      rcases h with h | ⟨u, hu, hlt⟩
      · simp [h]
      · simp [hu, hlt]
    unfold processEvent
    simp [hsum, hd, hr, huid, hskip, registerCandidate]

/-- The rule and event used in the C4 concrete instance. -/
def regRule : RRule := { freq := ["WEEKLY"], byday := ["MO"], untilDate := none }

/-- A weekly Monday meeting with UID "u1" starting on the window's Monday. -/
def regEvent : VEvent :=
  { summary := "Standup"
    uid := "u1"
    dtstart := some 7
    rrule := some regRule
    exdate := [] }

/-- Witness for C4: a weekly Monday meeting starting on the window's Monday is
registered under its UID. -/
theorem candidate_registration_witness :
    (processEvent 7 11 (initBoard, []) regEvent).2 =
      tableInsert [] (pyStrip regEvent.uid)
        { uid := pyStrip regEvent.uid, summary := pyStrip regEvent.summary,
          byday := regRule.byday, exdates := regEvent.exdate,
          recurrence_text := describe_recurrence regRule } :=
  (candidate_registration 7 11 (initBoard, []) regEvent 7 regRule
      (by decide) rfl rfl (by decide)).1 ⟨by decide, fun u hu => by simp [regRule] at hu⟩

/-! ## Applier lemmas -/

/-- An offset whose concrete date is excluded leaves the board untouched. -/
theorem applyDay_of_excluded (ws : Int) (rec : Candidate) (b : Board) (i : Nat)
    (h : ws + (i : Int) ∈ rec.exdates) : applyDay ws rec b i = some b := by
  unfold applyDay
  by_cases hc : pyUpper (pyTake 2 (strftimeA (ws + (i : Int)))) ∈ rec.byday <;>
    simp [hc, h]

/-- A successful `applyDay` either returns the board unchanged, or appends the
candidate's summary to the bucket of the offset's weekday (when the weekday
code is selected, the date is not excluded and the summary is not yet there). -/
theorem applyDay_cases (ws : Int) (rec : Candidate) (b b' : Board) (i : Nat)
    (h : applyDay ws rec b i = some b') :
    b' = b ∨
      (pyUpper (pyTake 2 (strftimeA (ws + (i : Int)))) ∈ rec.byday ∧
        ws + (i : Int) ∉ rec.exdates ∧
        ∃ l, boardGet b (strftimeA (ws + (i : Int))) = some l ∧ rec.summary ∉ l ∧
          b' = boardAppend b (strftimeA (ws + (i : Int))) rec.summary) := by
  unfold applyDay at h
  by_cases hc : pyUpper (pyTake 2 (strftimeA (ws + (i : Int)))) ∈ rec.byday
  · by_cases hex : ws + (i : Int) ∈ rec.exdates
    · simp [hc, hex] at h
      exact Or.inl h.symm
    · simp [hc, hex] at h
      cases hget : boardGet b (strftimeA (ws + (i : Int))) with
      | none => rw [hget] at h; cases h
      | some l =>
        rw [hget] at h
        by_cases hmem : rec.summary ∈ l
        · simp [hmem] at h
          exact Or.inl h.symm
        · simp [hmem] at h
          exact Or.inr ⟨hc, hex, l, rfl, hmem, h.symm⟩
  · simp [hc] at h
    exact Or.inl h.symm

/-- A successful `applyDay` changes no bucket other than the offset's weekday. -/
theorem applyDay_untouched (ws : Int) (rec : Candidate) (b b' : Board) (i : Nat)
    (h : applyDay ws rec b i = some b') (wd : String)
    (hwd : wd ≠ strftimeA (ws + (i : Int))) : boardGet b' wd = boardGet b wd := by
  rcases applyDay_cases ws rec b b' i h with h1 | ⟨-, -, l, -, -, h1⟩
  · rw [h1]
  · rw [h1, boardGet_boardAppend, if_neg (fun hh => hwd hh.symm)]

/-- A successful `applyDay` only grows buckets. -/
theorem applyDay_mono (ws : Int) (rec : Candidate) (b b' : Board) (i : Nat)
    (h : applyDay ws rec b i = some b') (wd : String) (l : List String)
    (hg : boardGet b wd = some l) :
    ∃ l', boardGet b' wd = some l' ∧ ∀ s ∈ l, s ∈ l' := by
  rcases applyDay_cases ws rec b b' i h with h1 | ⟨-, -, l0, hget, -, h1⟩
  · exact ⟨l, by rw [h1, hg], fun s hs => hs⟩
  · rw [h1, boardGet_boardAppend]
    by_cases hd : strftimeA (ws + (i : Int)) = wd
    · rw [if_pos hd, hg]
      exact ⟨l ++ [rec.summary], rfl, fun s hs => List.mem_append_left _ hs⟩
    · rw [if_neg hd]
      exact ⟨l, hg, fun s hs => hs⟩

/-- When the offset's weekday code is selected and its date is not excluded, a
successful `applyDay` leaves the summary present in that weekday's bucket. -/
theorem applyDay_adds (ws : Int) (rec : Candidate) (b b' : Board) (i : Nat)
    (hc : pyUpper (pyTake 2 (strftimeA (ws + (i : Int)))) ∈ rec.byday)
    (hex : ws + (i : Int) ∉ rec.exdates)
    (h : applyDay ws rec b i = some b') :
    ∃ l, boardGet b' (strftimeA (ws + (i : Int))) = some l ∧ rec.summary ∈ l := by
  unfold applyDay at h
  simp [hc, hex] at h
  cases hget : boardGet b (strftimeA (ws + (i : Int))) with
  | none => rw [hget] at h; cases h
  | some l =>
    rw [hget] at h
    by_cases hmem : rec.summary ∈ l
    · simp [hmem] at h
      exact ⟨l, by rw [← h, hget], hmem⟩
    · simp [hmem] at h
      rw [← h, boardGet_boardAppend, if_pos rfl, hget]
      exact ⟨l ++ [rec.summary], rfl, by simp⟩

/-- `applyDays` only grows buckets. -/
theorem applyDays_mono (ws : Int) (rec : Candidate) (is : List Nat)
    (b b' : Board) (h : applyDays ws rec is b = some b') (wd : String)
    (l : List String) (hg : boardGet b wd = some l) :
    ∃ l', boardGet b' wd = some l' ∧ ∀ s ∈ l, s ∈ l' := by
  induction is generalizing b l with
  | nil =>
    unfold applyDays at h
    cases h
    exact ⟨l, hg, fun s hs => hs⟩
  | cons i is ih =>
    unfold applyDays at h
    cases hstep : applyDay ws rec b i with
    | none => rw [hstep] at h; cases h
    | some b1 =>
      rw [hstep] at h
      obtain ⟨l1, hg1, hsub⟩ := applyDay_mono ws rec b b1 i hstep wd l hg
      obtain ⟨l', hg', hsub'⟩ := ih b1 h l1 hg1
      exact ⟨l', hg', fun s hs => hsub' s (hsub s hs)⟩

/-- After a successful `applyDays` pass over a list containing offset `i`
whose weekday code is selected and whose date is not excluded, the summary is
in that weekday's bucket. -/
theorem applyDays_adds (ws : Int) (rec : Candidate) (is : List Nat) (i : Nat)
    (hi : i ∈ is)
    (hc : pyUpper (pyTake 2 (strftimeA (ws + (i : Int)))) ∈ rec.byday)
    (hex : ws + (i : Int) ∉ rec.exdates)
    (b b' : Board) (h : applyDays ws rec is b = some b') :
    ∃ l, boardGet b' (strftimeA (ws + (i : Int))) = some l ∧ rec.summary ∈ l := by
  induction is generalizing b with
  | nil => cases hi
  | cons j js ih =>
    unfold applyDays at h
    cases hstep : applyDay ws rec b j with
    | none => rw [hstep] at h; cases h
    | some b1 =>
      rw [hstep] at h
      rcases List.mem_cons.mp hi with rfl | hi'
      · obtain ⟨l, hg, hm⟩ := applyDay_adds ws rec b b1 i hc hex hstep
        obtain ⟨l', hg', hsub⟩ := applyDays_mono ws rec js b1 b' h _ l hg
        exact ⟨l', hg', hsub _ hm⟩
      · exact ih hi' b1 h

/-- A bucket whose weekday occurs in the offset list only at excluded dates is
left exactly as it was by a successful `applyDays` pass. -/
theorem applyDays_untouched (ws : Int) (rec : Candidate) (is : List Nat)
    (wd : String)
    (hall : ∀ j ∈ is, strftimeA (ws + (j : Int)) = wd → ws + (j : Int) ∈ rec.exdates)
    (b b' : Board) (h : applyDays ws rec is b = some b') :
    boardGet b' wd = boardGet b wd := by
  induction is generalizing b with
  | nil =>
    unfold applyDays at h
    cases h
    rfl
  | cons j js ih =>
    unfold applyDays at h
    cases hstep : applyDay ws rec b j with
    | none => rw [hstep] at h; cases h
    | some b1 =>
      rw [hstep] at h
      have hstep_eq : boardGet b1 wd = boardGet b wd := by
        by_cases hj : strftimeA (ws + (j : Int)) = wd
        · have hex := hall j (List.mem_cons_self j js) hj
          rw [applyDay_of_excluded ws rec b j hex] at hstep
          cases hstep
          rfl
        · exact applyDay_untouched ws rec b b1 j hstep wd (fun hh => hj hh.symm)
      rw [ih (fun j' hj' => hall j' (List.mem_cons_of_mem j hj')) b1 h, hstep_eq]

/-- Distinct indices below 7 name distinct weekdays. -/
theorem weekdayNames_getD_inj :
    ∀ m : Nat, m < 7 → ∀ n : Nat, n < 7 → m ≠ n →
      weekdayNames.getD m "Monday" ≠ weekdayNames.getD n "Monday" := by decide

/-- Two distinct offsets inside the 5-day window fall on distinct weekdays. -/
theorem strftimeA_window_inj (ws : Int) (i j : Nat) (hi : i < 5) (hj : j < 5)
    (hij : i ≠ j) : strftimeA (ws + (i : Int)) ≠ strftimeA (ws + (j : Int)) := by
  have hmod : (ws + (i : Int)) % 7 ≠ (ws + (j : Int)) % 7 := by
    intro h
    have h0 : ((ws + (i : Int)) - (ws + (j : Int))) % 7 = 0 :=
      Int.emod_eq_emod_iff_emod_sub_eq_zero.mp h
    have hdvd : (7 : Int) ∣ ((ws + (i : Int)) - (ws + (j : Int))) :=
      Int.dvd_of_emod_eq_zero h0
    have heq : (ws + (i : Int)) - (ws + (j : Int)) = (i : Int) - (j : Int) := by
      ring
    rw [heq] at hdvd
    have hz : (i : Int) - (j : Int) = 0 :=
      Int.eq_zero_of_dvd_of_natAbs_lt_natAbs hdvd (by omega)
    omega
  have h1 : 0 ≤ (ws + (i : Int)) % 7 := Int.emod_nonneg _ (by norm_num)
  have h2 : (ws + (i : Int)) % 7 < 7 := Int.emod_lt_of_pos _ (by norm_num)
  have h3 : 0 ≤ (ws + (j : Int)) % 7 := Int.emod_nonneg _ (by norm_num)
  have h4 : (ws + (j : Int)) % 7 < 7 := Int.emod_lt_of_pos _ (by norm_num)
  unfold strftimeA
  exact weekdayNames_getD_inj _ (by omega) _ (by omega) (by omega)

/-- C2 (amended): after the applier runs for a UID `u` bound to candidate
`rec`, every in-window weekday whose code is in `rec.byday` and whose date is
not in `rec.exdates` has `rec.summary` in its bucket; for a date in
`rec.exdates` the applier leaves that weekday's bucket exactly as it was — so
the summary appears there after the run only if it was already present before
(e.g. as an explicit occurrence), not because of the applier. -/
theorem applyOne_places_and_skips (ws : Int) (t : Table) (board board' : Board)
    (uid : String) (rec : Candidate)
    (hget : tableGet t uid = some rec)
    (happ : applyOne ws t board uid = some board') :
    ∀ i : Nat, i < 5 →
      ((pyUpper (pyTake 2 (strftimeA (ws + (i : Int)))) ∈ rec.byday ∧
          ws + (i : Int) ∉ rec.exdates) →
        ∃ l, boardGet board' (strftimeA (ws + (i : Int))) = some l ∧
          rec.summary ∈ l) ∧
      (ws + (i : Int) ∈ rec.exdates →
        boardGet board' (strftimeA (ws + (i : Int))) =
          boardGet board (strftimeA (ws + (i : Int)))) := by
  intro i hi
  unfold applyOne at happ
  rw [hget] at happ
  constructor
  · rintro ⟨hc, hex⟩
    refine applyDays_adds ws rec [0, 1, 2, 3, 4] i ?_ hc hex board board' happ
    have : i = 0 ∨ i = 1 ∨ i = 2 ∨ i = 3 ∨ i = 4 := by omega
    rcases this with rfl | rfl | rfl | rfl | rfl <;> simp
  · intro hex
    refine applyDays_untouched ws rec [0, 1, 2, 3, 4] _ ?_ board board' happ
    intro j hj hwd
    by_cases hji : j = i
    · rw [hji]
      exact hex
    · exfalso
      have hj5 : j < 5 := by
        simp at hj
        omega
      exact strftimeA_window_inj ws j i hj5 hi hji hwd

/-! ## The C2 concrete instance -/

/-- The weekly Monday-and-Wednesday rule of the C2 concrete instance. -/
def cexRule : RRule := { freq := ["WEEKLY"], byday := ["MO", "WE"], untilDate := none }

/-- The candidate the pipeline registers for the recurring "Standup" with an
EXDATE on the window's Monday (day 7). -/
def cexCand : Candidate :=
  { uid := "u1"
    summary := "Standup"
    byday := ["MO", "WE"]
    exdates := [7]
    recurrence_text := "Occurs every Monday, Wednesday" }

/-- An explicit "Standup" on the window's Monday plus the recurring "Standup"
(BYDAY=[MO,WE], EXDATE = Monday). -/
def cexEvents : List VEvent :=
  [ { summary := "Standup", uid := "e1", dtstart := some 7, rrule := none,
      exdate := [] },
    { summary := "Standup", uid := "u1", dtstart := some 7,
      rrule := some cexRule, exdate := [7] } ]

/-- The board after classifying `cexEvents` and applying "u1": "Standup" on
Monday (explicit) and on Wednesday (applied). -/
def appliedBoard : Board :=
  [("Monday", ["Standup"]), ("Tuesday", []), ("Wednesday", ["Standup"]),
   ("Thursday", []), ("Friday", [])]

/-- Witness for the amended C2: applying "u1" over `covBoard` places the
summary on Wednesday (offset 2) and leaves Monday's bucket (offset 0, the
excluded date) exactly as it was. -/
theorem applyOne_places_and_skips_witness :
    (∃ l, boardGet appliedBoard (strftimeA (7 + ((2 : Nat) : Int))) = some l ∧
        cexCand.summary ∈ l) ∧
      boardGet appliedBoard (strftimeA (7 + ((0 : Nat) : Int))) =
        boardGet covBoard (strftimeA (7 + ((0 : Nat) : Int))) := by
  have h := applyOne_places_and_skips 7 [("u1", cexCand)] covBoard appliedBoard
      "u1" cexCand rfl rfl
  exact ⟨(h 2 (by omega)).1 ⟨by decide, by decide⟩, (h 0 (by omega)).2 (by decide)⟩

/-- Counterexample to C2 as stated: in the full pipeline on `cexEvents`, UID
"u1" is present in the candidate table after reconciliation, the window's
Monday (day 7) is in its EXDATE set, and yet after the applier runs the
summary "Standup" does appear in Monday's bucket — it was recorded there by
the explicit occurrence, and exclusion dates do not remove it. -/
theorem apply_exclusion_counterexample :
    tableGet (v2Candidates 6 cexEvents) "u1" = some cexCand ∧
    (7 : Int) ∈ cexCand.exdates ∧
    strftimeA 7 = "Monday" ∧
    v2Board 6 cexEvents "u1" = some appliedBoard ∧
    boardGet appliedBoard "Monday" = some ["Standup"] ∧
    cexCand.summary ∈ ["Standup"] :=
  ⟨rfl, by decide, rfl, rfl, rfl, by decide⟩

/-! ## No-duplicate invariant -/

/-- Every bucket observable through a lookup is free of duplicate summaries. -/
def BucketsNodup (b : Board) : Prop :=
  ∀ wd l, boardGet b wd = some l → l.Nodup

/-- The initial board (five empty buckets) satisfies the invariant. -/
theorem initBoard_nodup : BucketsNodup initBoard := by
  intro wd l h
  simp [initBoard, boardGet] at h
  split_ifs at h <;> simp_all

/-- Appending a summary that is absent from the target bucket preserves the
invariant. -/
theorem boardAppend_nodup (b : Board) (day s : String) (l : List String)
    (hb : BucketsNodup b) (hget : boardGet b day = some l) (hs : s ∉ l) :
    BucketsNodup (boardAppend b day s) := by
  intro wd l' hg
  rw [boardGet_boardAppend] at hg
  by_cases hd : day = wd
  · rw [if_pos hd] at hg
    subst hd
    rw [hget] at hg
    simp at hg
    rw [← hg]
    refine List.Nodup.append (hb day l hget) (by simp) ?_
    intro a ha ha'
    simp at ha'
    exact hs (ha' ▸ ha)
  · rw [if_neg hd] at hg
    exact hb wd l' hg

/-- The bucketing step either leaves the board alone or appends a summary that
was absent from its target bucket. -/
theorem bucketEvent_cases (ws we : Int) (b : Board) (summary : String)
    (d : Int) :
    bucketEvent ws we b summary d = b ∨
      ∃ day l, boardGet b day = some l ∧ summary ∉ l ∧
        bucketEvent ws we b summary d = boardAppend b day summary := by
  unfold bucketEvent
  by_cases hw : ws ≤ d ∧ d ≤ we
  · rw [if_pos hw]
    cases hget : boardGet b (strftimeA d) with
    | none => exact Or.inl rfl
    | some l =>
      by_cases hmem : summary ∈ l
      · simp only [hmem, if_true]
        exact Or.inl trivial
      · simp only [hmem, if_false]
        exact Or.inr ⟨strftimeA d, l, hget, hmem, rfl⟩
  · rw [if_neg hw]
    exact Or.inl rfl

/-- The classifier loop body either leaves the board alone or appends a
summary that was absent from its target bucket. -/
theorem processEvent_board_cases (ws we : Int) (st : Board × Table)
    (e : VEvent) :
    (processEvent ws we st e).1 = st.1 ∨
      ∃ day l, boardGet st.1 day = some l ∧ pyStrip e.summary ∉ l ∧
        (processEvent ws we st e).1 = boardAppend st.1 day (pyStrip e.summary) := by
  unfold processEvent
  by_cases h1 : pyStrip e.summary = "" ∨
      pyStartswith "canceled" (pyLower (pyStrip e.summary))
  · rw [if_pos h1]
    exact Or.inl rfl
  · rw [if_neg h1]
    cases hd : e.dtstart with
    | none => exact Or.inl rfl
    | some d => exact bucketEvent_cases ws we st.1 (pyStrip e.summary) d

/-- The whole classifier preserves the invariant from any starting state. -/
theorem classify_steps_nodup (ws we : Int) (events : List VEvent) :
    ∀ st : Board × Table, BucketsNodup st.1 →
      BucketsNodup (events.foldl (processEvent ws we) st).1 := by
  induction events with
  | nil =>
    intro st hst
    simpa using hst
  | cons e es ih =>
    intro st hst
    simp only [List.foldl_cons]
    apply ih
    rcases processEvent_board_cases ws we st e with h | ⟨day, l, hget, hs, h⟩
    · rw [h]
      exact hst
    · rw [h]
      exact boardAppend_nodup st.1 day (pyStrip e.summary) l hst hget hs

/-- One applier offset preserves the invariant. -/
theorem applyDay_nodup (ws : Int) (rec : Candidate) (b b' : Board) (i : Nat)
    (h : applyDay ws rec b i = some b') (hb : BucketsNodup b) :
    BucketsNodup b' := by
  rcases applyDay_cases ws rec b b' i h with h1 | ⟨-, -, l, hget, hs, h1⟩
  · rw [h1]
    exact hb
  · rw [h1]
    exact boardAppend_nodup b _ rec.summary l hb hget hs

/-- An applier pass over any offset list preserves the invariant. -/
theorem applyDays_nodup (ws : Int) (rec : Candidate) (is : List Nat) :
    ∀ b b', applyDays ws rec is b = some b' → BucketsNodup b →
      BucketsNodup b' := by
  induction is with
  | nil =>
    intro b b' h hb
    unfold applyDays at h
    cases h
    exact hb
  | cons i is ih =>
    intro b b' h hb
    unfold applyDays at h
    cases hstep : applyDay ws rec b i with
    | none => rw [hstep] at h; cases h
    | some b1 =>
      rw [hstep] at h
      exact ih b1 b' h (applyDay_nodup ws rec b b1 i hstep hb)

/-- Applying one UID token preserves the invariant. -/
theorem applyOne_nodup (ws : Int) (t : Table) (b b' : Board) (uid : String)
    (h : applyOne ws t b uid = some b') (hb : BucketsNodup b) :
    BucketsNodup b' := by
  unfold applyOne at h
  cases hg : tableGet t uid with
  | none =>
    rw [hg] at h
    cases h
    exact hb
  | some rec =>
    rw [hg] at h
    exact applyDays_nodup ws rec [0, 1, 2, 3, 4] b b' h hb

/-- The applier's outer loop preserves the invariant. -/
theorem applyAll_nodup (ws : Int) (t : Table) (uids : List String) :
    ∀ b b', applyAll ws t uids b = some b' → BucketsNodup b →
      BucketsNodup b' := by
  induction uids with
  | nil =>
    intro b b' h hb
    unfold applyAll at h
    cases h
    exact hb
  | cons uid uids ih =>
    intro b b' h hb
    unfold applyAll at h
    cases hstep : applyOne ws t b uid with
    | none => rw [hstep] at h; cases h
    | some b1 =>
      rw [hstep] at h
      exact ih b1 b' h (applyOne_nodup ws t b b1 uid hstep hb)

/-- The whole applier preserves the invariant. -/
theorem applySelected_nodup (ws : Int) (t : Table) (b b' : Board)
    (inc : String) (h : applySelected ws t b inc = some b')
    (hb : BucketsNodup b) : BucketsNodup b' := by
  unfold applySelected at h
  by_cases hinc : inc = ""
  · rw [if_pos hinc] at h
    cases h
    exact hb
  · rw [if_neg hinc] at h
    exact applyAll_nodup ws t (splitBars inc) b b' h hb

/-- C3: after classification, and after applying any caller-selected UID
string on top of classification and reconciliation, every weekday bucket of
the board contains each summary at most once — neither the classifier nor the
applier ever appends a summary already present in a bucket. -/
theorem pipeline_buckets_nodup (ws we sunday : Int) (events : List VEvent)
    (inc : String) :
    BucketsNodup (classify ws we events).1 ∧
    ∀ b, v2Board sunday events inc = some b → BucketsNodup b := by
  constructor
  · exact classify_steps_nodup ws we events (initBoard, []) initBoard_nodup
  · intro b h
    exact applySelected_nodup (get_week_range_from_sunday sunday).1
      (reconcile
        (classify (get_week_range_from_sunday sunday).1
          (get_week_range_from_sunday sunday).2 events).1
        (classify (get_week_range_from_sunday sunday).1
          (get_week_range_from_sunday sunday).2 events).2)
      (classify (get_week_range_from_sunday sunday).1
        (get_week_range_from_sunday sunday).2 events).1
      b inc h
      (classify_steps_nodup (get_week_range_from_sunday sunday).1
        (get_week_range_from_sunday sunday).2 events (initBoard, [])
        initBoard_nodup)

/-- Witness for C3 on the C2 concrete run: the final Monday bucket is
duplicate-free although "Standup" was both explicit and applied. -/
theorem pipeline_buckets_nodup_witness :
    (["Standup"] : List String).Nodup :=
  (pipeline_buckets_nodup 7 11 6 cexEvents "u1").2 appliedBoard rfl
    "Monday" ["Standup"] rfl

/-- C7: a successful response carries the `recurring_candidates` field iff the
finalize flag is not case-insensitively "true"; when present, the list is
exactly the post-reconciliation candidate table — which the applier never
shrinks, so just-applied candidates are still listed — in table iteration
order, each entry projected to uid, summary, recurrence_text and byday. -/
theorem response_candidates_spec (sunday : Int) (events : List VEvent)
    (inc fin : String) (resp : Response)
    (h : generate_timesheet_v2 sunday events inc fin = some resp) :
    (resp.recurring_candidates ≠ none ↔ pyLower fin ≠ "true") ∧
    ∀ l, resp.recurring_candidates = some l →
      l = (v2Candidates sunday events).map candidateOut := by
  unfold generate_timesheet_v2 at h
  cases hb : v2Board sunday events inc with
  | none => rw [hb] at h; cases h
  | some board =>
    rw [hb] at h
    simp only [Option.some.injEq] at h
    constructor
    · rw [← h]
      by_cases hf : pyLower fin = "true" <;> simp [hf, v2Candidates]
    · intro l hl
      rw [← h] at hl
      by_cases hf : pyLower fin = "true"
      · simp [hf] at hl
      · simp [hf] at hl
        exact hl.symm

/-- The response for an empty calendar, week anchor 6, finalize "false". -/
def emptyResp : Response :=
  { week_range := toString (7 : Int) ++ " to " ++ toString (11 : Int)
    timesheet_summary := initBoard.map
      (fun q => (q.1, if q.2.isEmpty then ""
                      else "Attended " ++ String.intercalate ", " q.2))
    recurring_candidates := some [] }

/-- Witness for C7: an empty calendar with finalize "false" yields a response
whose candidate field is present (and empty). -/
theorem response_candidates_spec_witness :
    (emptyResp.recurring_candidates ≠ none ↔ pyLower "false" ≠ "true") ∧
    ∀ l, emptyResp.recurring_candidates = some l →
      l = (v2Candidates 6 []).map candidateOut :=
  response_candidates_spec 6 [] "" "false" emptyResp rfl

/-- The weekly Saturday rule of the C10 instance. -/
def weekendRule : RRule := { freq := ["WEEKLY"], byday := ["SA"], untilDate := none }

/-- One recurring Saturday event, starting on day 1 (a Tuesday). -/
def weekendEvents : List VEvent :=
  [ { summary := "Weekend standby", uid := "u1", dtstart := some 1,
      rrule := some weekendRule, exdate := [] } ]

/-- C10: the applier is not total over anchors.  With anchor day 0 — a Monday,
not a Sunday — the window days 1..5 run Tuesday..Saturday; the candidate with
BYDAY=[SA] survives reconciliation, and applying it indexes the board at
"Saturday", a key `events_by_day` does not have, so the pipeline aborts with
the modelled `KeyError` (`none`) instead of skipping the day. -/
theorem weekend_keyerror :
    strftimeA 0 = "Monday" ∧ strftimeA 5 = "Saturday" ∧
    tableGet (v2Candidates 0 weekendEvents) "u1" =
      some { uid := "u1", summary := "Weekend standby", byday := ["SA"],
             exdates := [], recurrence_text := "Occurs every Saturday" } ∧
    boardGet initBoard "Saturday" = none ∧
    generate_timesheet_v2 0 weekendEvents "u1" "false" = none :=
  ⟨rfl, rfl, rfl, rfl, rfl⟩
